import Mathlib

/-!
Verification of the `char_escape` crate: a rule-driven character escaper.
The definitions below embed the Rust source (`src/lib.rs`) over `List Char`
(Rust iterates strings by `char`, i.e. by Unicode scalar value, which is
exactly Lean's `Char`). Imperative loops become explicit state-passing
recursion with the same accumulator and state variables as the source.
-/

namespace CharEscape

/-- Embeds `struct Rule { unescaped: char, escaped: char }`. -/
structure Rule where
  unescaped : Char
  escaped : Char
deriving DecidableEq, Repr

/-- Embeds `struct MissingEscapeCharRule {}`. -/
structure MissingEscapeCharRule where
deriving DecidableEq, Repr

/-- Embeds `MissingEscapeCharRule::new()`. -/
def MissingEscapeCharRule.new : MissingEscapeCharRule := {}

/-- Embeds `enum UnescapeError { Invalid(String), Incomplete }`; the
`String` payload is a character sequence. -/
inductive UnescapeError where
  | Invalid : List Char → UnescapeError
  | Incomplete : UnescapeError
deriving DecidableEq, Repr

/-- Embeds `struct Escaper { escape_char: char, rules: &[Rule] }`. -/
structure Escaper where
  escape_char : Char
  rules : List Rule
deriving DecidableEq, Repr

/-- Embeds the free function `contains_escape_char_rule`:
`rules.iter().any(|rule| rule.unescaped == escape_char)`. -/
def contains_escape_char_rule (escape_char : Char) (rules : List Rule) : Bool :=
  rules.any (fun rule => rule.unescaped == escape_char)

/-- Embeds `Escaper::new_unchecked`: builds the struct with no validation. -/
def Escaper.new_unchecked (escape_char : Char) (rules : List Rule) : Escaper :=
  { escape_char := escape_char, rules := rules }

/-- Embeds `Escaper::new`: validates with `contains_escape_char_rule`,
returning `MissingEscapeCharRule` when the check fails. -/
def Escaper.new (escape_char : Char) (rules : List Rule) :
    Except MissingEscapeCharRule Escaper :=
  if contains_escape_char_rule escape_char rules then
    .ok { escape_char := escape_char, rules := rules }
  else
    .error MissingEscapeCharRule.new

/-- Embeds the private method `Escaper::escape_char` (renamed: in Lean the
field accessor already uses that name):
`Some(self.rules.iter().find(|rule| rule.unescaped == c)?.escaped)`. -/
def Escaper.escapeCharFn (e : Escaper) (c : Char) : Option Char :=
  (e.rules.find? (fun rule => rule.unescaped == c)).map (fun rule => rule.escaped)

/-- Embeds the loop of `Escaper::escape`; `ret` is the output string being
built, pushes become appends. -/
def Escaper.escapeLoop (e : Escaper) (ret : List Char) : List Char → List Char
  | [] => ret
  | c :: cs =>
    match e.escapeCharFn c with
    | some escaped => e.escapeLoop (ret ++ [e.escape_char, escaped]) cs
    | none => e.escapeLoop (ret ++ [c]) cs

/-- Embeds `Escaper::escape` (minus the `debug_assert!`, whose condition is
modelled separately as `escapeAssertion`). -/
def Escaper.escape (e : Escaper) (s : List Char) : List Char :=
  e.escapeLoop [] s

/-- Embeds the private method `Escaper::unescape_char`:
find the first rule with `escaped == c`; on a miss the error payload is
`[self.escape_char, c].into_iter().collect()`. -/
def Escaper.unescape_char (e : Escaper) (c : Char) : Except UnescapeError Char :=
  match e.rules.find? (fun rule => rule.escaped == c) with
  | none => .error (.Invalid [e.escape_char, c])
  | some rule => .ok rule.unescaped

/-- Embeds the loop of `Escaper::unescape`: `ret` is the output built so far
and `previous_was_escape_char` the one-bit scan state; the trailing check of
that bit yields `Incomplete`. -/
def Escaper.unescapeLoop (e : Escaper) (ret : List Char)
    (previous_was_escape_char : Bool) : List Char → Except UnescapeError (List Char)
  | [] =>
    if previous_was_escape_char then .error .Incomplete else .ok ret
  | c :: cs =>
    if previous_was_escape_char then
      match e.unescape_char c with
      | .ok r => e.unescapeLoop (ret ++ [r]) false cs
      | .error err => .error err
    else if c == e.escape_char then
      e.unescapeLoop ret true cs
    else
      e.unescapeLoop (ret ++ [c]) false cs

/-- Embeds `Escaper::unescape`. -/
def Escaper.unescape (e : Escaper) (s : List Char) : Except UnescapeError (List Char) :=
  e.unescapeLoop [] false s

/-- Embeds the loop of `Escaper::is_escaped`; the early `return false`
statements become `false` results. -/
def Escaper.isEscapedGo (e : Escaper) (previous_was_escape_char : Bool) :
    List Char → Bool
  | [] => !previous_was_escape_char
  | c :: cs =>
    if previous_was_escape_char then
      if (e.rules.map (fun rule => rule.escaped)).any (fun rule_c => rule_c == c) then
        e.isEscapedGo false cs
      else
        false
    else
      if c == e.escape_char then
        e.isEscapedGo true cs
      else if (e.rules.map (fun rule => rule.unescaped)).any
          (fun needs_to_be_escaped => c == needs_to_be_escaped) then
        false
      else
        e.isEscapedGo false cs

/-- Embeds `Escaper::is_escaped`. -/
def Escaper.is_escaped (e : Escaper) (s : List Char) : Bool :=
  e.isEscapedGo false s

/-- The condition of the `debug_assert!(self.is_escaped(&ret))` inside
`Escaper::escape`, as a predicate on the input. -/
def Escaper.escapeAssertion (e : Escaper) (s : List Char) : Bool :=
  e.is_escaped (e.escape s)

/-- Spec model of one step of `escape` (section 4.2 of the spec): look up the
first rule in table order whose raw field equals `c`; if found append the
escape character then its escaped value, otherwise append `c` unchanged. -/
def escapeOneSpec (e : Escaper) (c : Char) : List Char :=
  match e.rules.find? (fun rule => rule.unescaped == c) with
  | some rule => [e.escape_char, rule.escaped]
  | none => [c]

/-- Spec model of `unescape` (section 4.3 of the spec): a left-to-right scan
with a one-bit marker-expecting state. In marker-expecting state, the first
rule whose escaped field equals `c` yields its raw value, a miss fails with
`Invalid [escape_char, c]`; in normal state the escape character switches
state and any other character is copied; ending in marker-expecting state
fails with `Incomplete`. -/
def unescapeSpecModel (e : Escaper) (marker_expecting : Bool) :
    List Char → Except UnescapeError (List Char)
  | [] => if marker_expecting then .error .Incomplete else .ok []
  | c :: cs =>
    if marker_expecting then
      match e.rules.find? (fun rule => rule.escaped == c) with
      | some rule => (unescapeSpecModel e false cs).map (fun t => rule.unescaped :: t)
      | none => .error (.Invalid [e.escape_char, c])
    else if c == e.escape_char then
      unescapeSpecModel e true cs
    else
      (unescapeSpecModel e false cs).map (fun t => c :: t)

/-! ## Helper lemmas -/

/-- The `escape` loop equals the appended per-character spec expansion. -/
theorem escapeLoop_eq (e : Escaper) (s : List Char) :
    ∀ ret : List Char, e.escapeLoop ret s = ret ++ (s.map (escapeOneSpec e)).flatten := by
  induction s with
  | nil => intro ret; simp [Escaper.escapeLoop]
  | cons c cs ih =>
    intro ret
    cases h : e.rules.find? (fun rule => rule.unescaped == c) with
    | some rule =>
      simp [Escaper.escapeLoop, Escaper.escapeCharFn, escapeOneSpec, h, ih]
    | none =>
      simp [Escaper.escapeLoop, Escaper.escapeCharFn, escapeOneSpec, h, ih]

/-- `escape` is the concatenation of the per-character spec expansion. -/
theorem escape_eq_flatten (e : Escaper) (s : List Char) :
    e.escape s = (s.map (escapeOneSpec e)).flatten := by
  simp [Escaper.escape, escapeLoop_eq]

/-- The `unescape` loop equals the spec scan with the accumulator prepended. -/
theorem unescapeLoop_eq (e : Escaper) (s : List Char) :
    ∀ (ret : List Char) (b : Bool),
      e.unescapeLoop ret b s = (unescapeSpecModel e b s).map (fun t => ret ++ t) := by
  induction s with
  | nil =>
    intro ret b
    cases b <;> simp [Escaper.unescapeLoop, unescapeSpecModel, Except.map]
  | cons c cs ih =>
    intro ret b
    cases b with
    | true =>
      cases h : e.rules.find? (fun rule => rule.escaped == c) with
      | some rule =>
        rw [Escaper.unescapeLoop, unescapeSpecModel]
        simp only [if_pos rfl, Escaper.unescape_char, h, ih]
        cases hm : unescapeSpecModel e false cs <;> simp [Except.map]
      | none =>
        rw [Escaper.unescapeLoop, unescapeSpecModel]
        simp [Escaper.unescape_char, h, Except.map]
    | false =>
      cases hc : c == e.escape_char with
      | true =>
        rw [Escaper.unescapeLoop, unescapeSpecModel]
        simp [hc, ih]
      | false =>
        rw [Escaper.unescapeLoop, unescapeSpecModel]
        simp only [hc, ih]
        cases hm : unescapeSpecModel e false cs <;> simp [Except.map]

/-- `unescape` coincides with the spec scan started in normal state. -/
theorem unescape_eq_model (e : Escaper) (s : List Char) :
    e.unescape s = unescapeSpecModel e false s := by
  rw [Escaper.unescape, unescapeLoop_eq]
  cases unescapeSpecModel e false s <;> simp [Except.map]

/-- With pairwise-distinct `escaped` values, looking a member rule's escaped
value back up finds exactly that rule. -/
theorem find?_escaped_eq_of_nodup {rules : List Rule}
    (hnd : (rules.map Rule.escaped).Nodup) {r : Rule} (hr : r ∈ rules) :
    rules.find? (fun rule => rule.escaped == r.escaped) = some r := by
  induction rules with
  | nil => cases hr
  | cons a as ih =>
    rcases List.mem_cons.mp hr with rfl | hr2
    · exact List.find?_cons_of_pos _ (by simp)
    · have hnd' := List.nodup_cons.mp hnd
      have ha : ¬(a.escaped == r.escaped) = true := by
        intro hEq
        have hmem : r.escaped ∈ as.map Rule.escaped := List.mem_map_of_mem _ hr2
        rw [← beq_iff_eq.mp hEq] at hmem
        exact hnd'.1 hmem
      rw [@List.find?_cons_of_neg Rule (fun rule => rule.escaped == r.escaped) a as ha]
      exact ih hnd'.2 hr2

/-- In a valid table, a character with no escaping rule is not the escape
character itself. -/
theorem ne_escape_char_of_find?_none {e : Escaper}
    (hv : contains_escape_char_rule e.escape_char e.rules = true) {c : Char}
    (hn : e.rules.find? (fun rule => rule.unescaped == c) = none) :
    (c == e.escape_char) = false := by
  obtain ⟨r, hr, hrc⟩ := List.any_eq_true.mp hv
  have hall := List.find?_eq_none.mp hn
  by_contra hcontra
  have hc : (c == e.escape_char) = true := by
    cases hfc : c == e.escape_char
    · exact absurd hfc hcontra
    · rfl
  exact hall r hr (by rw [beq_iff_eq.mp hrc, ← beq_iff_eq.mp hc]; simp)

/-- Core of the round-trip law: with distinct escaped values and a valid
table, the spec scan inverts the per-character escape expansion. -/
theorem model_unescape_escape (e : Escaper)
    (hnd : (e.rules.map Rule.escaped).Nodup)
    (hv : contains_escape_char_rule e.escape_char e.rules = true) :
    ∀ s : List Char, unescapeSpecModel e false ((s.map (escapeOneSpec e)).flatten) = .ok s := by
  intro s
  induction s with
  | nil => simp [unescapeSpecModel]
  | cons c cs ih =>
    cases h : e.rules.find? (fun rule => rule.unescaped == c) with
    | some rule =>
      have hmem := List.mem_of_find?_eq_some h
      have hpc : rule.unescaped = c := by simpa using List.find?_some h
      have hfind := find?_escaped_eq_of_nodup hnd hmem
      simp only [List.map_cons, List.flatten_cons, escapeOneSpec, h, List.cons_append,
        List.nil_append]
      simp [unescapeSpecModel, hfind, ih, hpc, Except.map]
    | none =>
      have hne := ne_escape_char_of_find?_none hv h
      simp only [List.map_cons, List.flatten_cons, escapeOneSpec, h, List.cons_append,
        List.nil_append]
      simp [unescapeSpecModel, hne, ih, Except.map]

/-- Core of escaped-output validity: on a valid table, the `is_escaped` scan
accepts the concatenated escape expansion. -/
theorem isEscapedGo_escape (e : Escaper)
    (hv : contains_escape_char_rule e.escape_char e.rules = true) :
    ∀ s : List Char, e.isEscapedGo false ((s.map (escapeOneSpec e)).flatten) = true := by
  intro s
  induction s with
  | nil => simp [Escaper.isEscapedGo]
  | cons c cs ih =>
    cases h : e.rules.find? (fun rule => rule.unescaped == c) with
    | some rule =>
      have hmem := List.mem_of_find?_eq_some h
      have hany : ((e.rules.map (fun rule => rule.escaped)).any
          (fun rule_c => rule_c == rule.escaped)) = true := by
        rw [List.any_eq_true]
        exact ⟨rule.escaped, List.mem_map_of_mem _ hmem, by simp⟩
      simp only [List.map_cons, List.flatten_cons, escapeOneSpec, h, List.cons_append,
        List.nil_append]
      simp [Escaper.isEscapedGo, hany, ih]
    | none =>
      have hne := ne_escape_char_of_find?_none hv h
      have hraw : ((e.rules.map (fun rule => rule.unescaped)).any
          (fun needs_to_be_escaped => c == needs_to_be_escaped)) = false := by
        cases hr : (e.rules.map (fun rule => rule.unescaped)).any
            (fun needs_to_be_escaped => c == needs_to_be_escaped)
        · rfl
        · obtain ⟨x, hx, hxc⟩ := List.any_eq_true.mp hr
          obtain ⟨r, hrmem, hrx⟩ := List.mem_map.mp hx
          have := List.find?_eq_none.mp h r hrmem
          rw [← hrx] at hxc
          exact absurd (by rw [beq_iff_eq.mp hxc]; simp) this
      simp only [List.map_cons, List.flatten_cons, escapeOneSpec, h, List.cons_append,
        List.nil_append]
      simp [Escaper.isEscapedGo, hne, hraw, ih]

/-- `is_escaped` holds of every `escape` output on a valid table. -/
theorem is_escaped_escape_aux (e : Escaper)
    (hv : contains_escape_char_rule e.escape_char e.rules = true) (s : List Char) :
    e.is_escaped (e.escape s) = true := by
  rw [Escaper.is_escaped, escape_eq_flatten]
  exact isEscapedGo_escape e hv s

/-- A string accepted by the `is_escaped` scan makes the spec scan succeed. -/
theorem model_ok_of_isEscapedGo (e : Escaper) :
    ∀ (s : List Char) (b : Bool), e.isEscapedGo b s = true →
      ∃ t, unescapeSpecModel e b s = .ok t := by
  intro s
  induction s with
  | nil =>
    intro b hb
    cases b with
    | false => exact ⟨[], by simp [unescapeSpecModel]⟩
    | true => simp [Escaper.isEscapedGo] at hb
  | cons c cs ih =>
    intro b hb
    cases b with
    | true =>
      rw [Escaper.isEscapedGo] at hb
      simp only [if_pos rfl] at hb
      cases hany : (e.rules.map (fun rule => rule.escaped)).any (fun rule_c => rule_c == c) with
      | false => rw [hany] at hb; simp at hb
      | true =>
        rw [hany] at hb
        simp only [if_pos rfl] at hb
        obtain ⟨x, hx, hxc⟩ := List.any_eq_true.mp hany
        obtain ⟨r, hrmem, hrx⟩ := List.mem_map.mp hx
        have hfind : ∃ rule, e.rules.find? (fun rule => rule.escaped == c) = some rule := by
          rw [← Option.isSome_iff_exists, List.find?_isSome]
          exact ⟨r, hrmem, by rw [hrx]; exact hxc⟩
        obtain ⟨rule, hrule⟩ := hfind
        obtain ⟨t, ht⟩ := ih false hb
        exact ⟨rule.unescaped :: t, by rw [unescapeSpecModel]; simp [hrule, ht, Except.map]⟩
    | false =>
      rw [Escaper.isEscapedGo] at hb
      cases hc : c == e.escape_char with
      | true =>
        rw [hc] at hb
        simp only [Bool.false_eq_true, if_false, if_pos rfl] at hb
        obtain ⟨t, ht⟩ := ih true hb
        exact ⟨t, by rw [unescapeSpecModel]; simp [hc, ht]⟩
      | false =>
        rw [hc] at hb
        cases hraw : (e.rules.map (fun rule => rule.unescaped)).any
            (fun needs_to_be_escaped => c == needs_to_be_escaped) with
        | true => rw [hraw] at hb; simp at hb
        | false =>
          rw [hraw] at hb
          simp only [Bool.false_eq_true, if_false] at hb
          obtain ⟨t, ht⟩ := ih false hb
          exact ⟨c :: t, by rw [unescapeSpecModel]; simp [hc, ht, Except.map]⟩

/-- Each per-character expansion has length one or two, so the flattened
escape output is at least as long as the input. -/
theorem length_le_flatten_escape (e : Escaper) (s : List Char) :
    s.length ≤ ((s.map (escapeOneSpec e)).flatten).length := by
  induction s with
  | nil => simp
  | cons c cs ih =>
    cases h : e.rules.find? (fun rule => rule.unescaped == c) <;>
      simp only [List.map_cons, List.flatten_cons, escapeOneSpec, h, List.length_append,
        List.length_cons, List.length_nil] <;> omega

/-! ## Concrete escapers used by the witnesses -/

/-- A minimal valid table: the self-escaping rule plus newline → `n`. -/
def demoRules : List Rule := [⟨'\\', '\\'⟩, ⟨'\n', 'n'⟩]

/-- Escaper over `demoRules` with marker backslash. -/
def demoE : Escaper := Escaper.new_unchecked '\\' demoRules

/-- The rule table of the crate-level documentation example. -/
def rustRules : List Rule :=
  [⟨'\n', 'n'⟩, ⟨'\r', 'r'⟩, ⟨'\t', 't'⟩, ⟨'\\', '\\'⟩, ⟨'\'', '\''⟩, ⟨'"', '"'⟩]

/-- Escaper of the crate-level documentation example. -/
def rustE : Escaper := Escaper.new_unchecked '\\' rustRules

/-- A table with two rules sharing the raw character `a`. -/
def ambiguousRules : List Rule := [⟨'a', 'x'⟩, ⟨'a', 'y'⟩, ⟨'\\', '\\'⟩]

/-- Escaper over `ambiguousRules`. -/
def ambiguousE : Escaper := Escaper.new_unchecked '\\' ambiguousRules

/-- The input of the crate-level documentation example. -/
def rustInput : List Char := ['\n', '\r', '\t', '\\', '\'', '"']

/-- The escaped output of the crate-level documentation example. -/
def rustOutput : List Char :=
  ['\\', 'n', '\\', 'r', '\\', 't', '\\', '\\', '\\', '\'', '\\', '"']

/-! ## Claim theorems -/

/-- Claim C1: for every Escaper whose rule table has pairwise-distinct
unescaped values and pairwise-distinct escaped values and contains a rule
whose unescaped field equals the escape character, and for every input
string `x`, `unescape (escape x)` returns `Ok x`. -/
theorem round_trip (e : Escaper)
    (_h_raw : (e.rules.map Rule.unescaped).Nodup)
    (h_esc : (e.rules.map Rule.escaped).Nodup)
    (h_self : contains_escape_char_rule e.escape_char e.rules = true)
    (x : List Char) : e.unescape (e.escape x) = .ok x := by
  rw [unescape_eq_model, escape_eq_flatten]
  exact model_unescape_escape e h_esc h_self x

/-- Witness for C1: the doc-example escaper satisfies the hypotheses and
round-trips a concrete input. -/
theorem round_trip_witness :
    ((rustE.rules.map Rule.unescaped).Nodup
        ∧ (rustE.rules.map Rule.escaped).Nodup
        ∧ contains_escape_char_rule rustE.escape_char rustE.rules = true)
      ∧ rustE.unescape (rustE.escape ['h', 'i', '\n', '\\']) = .ok ['h', 'i', '\n', '\\'] :=
  ⟨⟨by decide, by decide, by decide⟩,
    round_trip rustE (by decide) (by decide) (by decide) ['h', 'i', '\n', '\\']⟩

/-- Claim C2: for every valid Escaper (the rule table contains a rule with
unescaped equal to the escape character) and every input `x`,
`is_escaped (escape x)` returns true. -/
theorem is_escaped_escape (e : Escaper)
    (h_self : contains_escape_char_rule e.escape_char e.rules = true)
    (x : List Char) : e.is_escaped (e.escape x) = true :=
  is_escaped_escape_aux e h_self x

/-- Witness for C2 at the demo escaper and a concrete input. -/
theorem is_escaped_escape_witness :
    contains_escape_char_rule demoE.escape_char demoE.rules = true
      ∧ demoE.is_escaped (demoE.escape ['a', '\n', '\\']) = true :=
  ⟨by decide, is_escaped_escape demoE (by decide) ['a', '\n', '\\']⟩

/-- Claim C3: for every Escaper and string `s`, if `is_escaped s` returns
true then `unescape s` returns `Ok` (it never returns an error). -/
theorem unescape_ok_of_is_escaped (e : Escaper) (s : List Char)
    (h : e.is_escaped s = true) : ∃ t, e.unescape s = .ok t := by
  obtain ⟨t, ht⟩ := model_ok_of_isEscapedGo e s false h
  exact ⟨t, by rw [unescape_eq_model]; exact ht⟩

/-- Witness for C3 at the demo escaper and a concrete escaped string. -/
theorem unescape_ok_of_is_escaped_witness :
    demoE.is_escaped ['\\', 'n', 'a'] = true
      ∧ ∃ t, demoE.unescape ['\\', 'n', 'a'] = .ok t :=
  ⟨by decide, unescape_ok_of_is_escaped demoE ['\\', 'n', 'a'] (by decide)⟩

/-- Claim C4: `unescape` behaves exactly as the spec's left-to-right scan
with a one-bit marker-expecting state — failing with `Invalid` of the escape
character and the offending character at the first unmatched marker-expecting
character, with `Incomplete` when the scan ends marker-expecting, and
returning `Ok` otherwise. -/
theorem unescape_eq_spec_scan (e : Escaper) (s : List Char) :
    e.unescape s = unescapeSpecModel e false s :=
  unescape_eq_model e s

/-- Claim C5: `escape` expands each character in order by the first matching
rule in table order (two-character expansion via the escape character on a
hit, the character itself on a miss), the first rule wins on duplicate raw
characters, and the output is at least as long as the input. -/
theorem escape_characterization (e : Escaper) (s : List Char) :
    e.escape s = (s.map (escapeOneSpec e)).flatten
      ∧ s.length ≤ (e.escape s).length
      ∧ ∀ (c : Char) (pre post : List Rule) (r : Rule),
          e.rules = pre ++ r :: post → r.unescaped = c →
          (∀ p ∈ pre, p.unescaped ≠ c) → e.escapeCharFn c = some r.escaped := by
  refine ⟨escape_eq_flatten e s, ?_, ?_⟩
  · rw [escape_eq_flatten]
    exact length_le_flatten_escape e s
  · intro c pre post r hrules hrc hpre
    have hpre' : pre.find? (fun rule => rule.unescaped == c) = none := by
      rw [List.find?_eq_none]
      intro a ha
      simp [hpre a ha]
    rw [Escaper.escapeCharFn, hrules, List.find?_append, hpre']
    rw [List.find?_cons_of_pos _ (by simp [hrc])]
    simp

/-- Witness for C5: on the table with two rules for `a`, the first rule (to
`x`) wins. -/
theorem escape_characterization_witness :
    ambiguousE.rules = [] ++ (⟨'a', 'x'⟩ : Rule) :: [⟨'a', 'y'⟩, ⟨'\\', '\\'⟩]
      ∧ ambiguousE.escapeCharFn 'a' = some 'x' :=
  ⟨rfl, (escape_characterization ambiguousE ['a']).2.2 'a' [] [⟨'a', 'y'⟩, ⟨'\\', '\\'⟩]
      ⟨'a', 'x'⟩ rfl rfl (by simp)⟩

/-- Claim C6: `new escape_char rules` returns the `MissingEscapeCharRule`
error iff no rule has its unescaped field equal to `escape_char`; otherwise
it returns `Ok` of the very same data, with no further validation. -/
theorem new_validation (escape_char : Char) (rules : List Rule) :
    (Escaper.new escape_char rules = .error MissingEscapeCharRule.new ↔
        ∀ r ∈ rules, r.unescaped ≠ escape_char)
      ∧ ((∃ r ∈ rules, r.unescaped = escape_char) →
        Escaper.new escape_char rules = .ok (Escaper.new_unchecked escape_char rules)) := by
  have hiff : contains_escape_char_rule escape_char rules = true ↔
      ∃ r ∈ rules, r.unescaped = escape_char := by
    rw [contains_escape_char_rule, List.any_eq_true]
    simp
  constructor
  · constructor
    · intro h r hr hEq
      rw [Escaper.new] at h
      split at h
      · simp at h
      · rename_i hc
        exact hc (hiff.mpr ⟨r, hr, hEq⟩)
    · intro hall
      rw [Escaper.new]
      split
      · rename_i hc
        obtain ⟨r, hr, hrc⟩ := hiff.mp hc
        exact absurd hrc (hall r hr)
      · rfl
  · intro hex
    rw [Escaper.new]
    split
    · rfl
    · rename_i hc
      exact absurd (hiff.mpr hex) hc

/-- Witness for C6: construction fails on the empty table and succeeds on the
demo table. -/
theorem new_validation_witness :
    Escaper.new '\\' [] = .error MissingEscapeCharRule.new
      ∧ Escaper.new '\\' demoRules = .ok (Escaper.new_unchecked '\\' demoRules) :=
  ⟨(new_validation '\\' []).1.mpr (by simp),
    (new_validation '\\' demoRules).2 ⟨⟨'\\', '\\'⟩, by simp [demoRules], rfl⟩⟩

/-- Claim C7 counterexample: built with `new_unchecked` from a table lacking
a rule for the escape character, escaping a lone backslash violates the
`debug_assert` condition of `escape` (so in a debug build `escape` panics). -/
theorem escape_assertion_counterexample :
    (Escaper.new_unchecked '\\' []).escapeAssertion ['\\'] = false := by decide

/-- Claim C7 (amended): for every Escaper whose rule table contains a rule
for the escape character, the internal assertion of `escape` — that the
output satisfies `is_escaped` — holds on every input. -/
theorem escape_assertion_valid (e : Escaper)
    (h_self : contains_escape_char_rule e.escape_char e.rules = true)
    (s : List Char) : e.escapeAssertion s = true :=
  is_escaped_escape_aux e h_self s

/-- Witness for the amended C7 at the doc-example escaper. -/
theorem escape_assertion_valid_witness :
    contains_escape_char_rule rustE.escape_char rustE.rules = true
      ∧ rustE.escapeAssertion ['\n', 'x'] = true :=
  ⟨by decide, escape_assertion_valid rustE (by decide) ['\n', 'x']⟩

/-- Claim C8: there is a valid Escaper and a string rejected by `is_escaped`
on which `unescape` still succeeds — here a bare newline, which the demo
table requires to be escaped. -/
theorem is_escaped_strictly_stronger :
    contains_escape_char_rule demoE.escape_char demoE.rules = true
      ∧ demoE.is_escaped ['\n'] = false
      ∧ demoE.unescape ['\n'] = .ok ['\n'] :=
  ⟨by decide, by decide, rfl⟩

/-- Claim C9: the crate-level doc example — escaping the six-character input
newline, carriage return, tab, backslash, quote, double quote yields the
twelve-character escaped text, and unescaping that text restores the input
exactly. -/
theorem doc_example_exact :
    rustE.escape rustInput = rustOutput
      ∧ rustE.unescape rustOutput = .ok rustInput :=
  ⟨by decide, rfl⟩

/-- Claim C10: whenever `new` returns `Ok e`, the escaper `e` is structurally
the value `new_unchecked` builds from the same arguments. -/
theorem new_ok_eq_unchecked (escape_char : Char) (rules : List Rule) (e : Escaper)
    (h : Escaper.new escape_char rules = .ok e) :
    e = Escaper.new_unchecked escape_char rules := by
  rw [Escaper.new] at h
  split at h
  · injection h with h2
    rw [← h2]
    rfl
  · exact Except.noConfusion h

/-- Witness for C10 at the demo table. -/
theorem new_ok_eq_unchecked_witness :
    demoE = Escaper.new_unchecked '\\' demoRules :=
  new_ok_eq_unchecked '\\' demoRules demoE (by rfl)


end CharEscape
